import Mathlib

/-!
Verification of the proposal-generator pipeline (src/legacy/proposal/generator.py).

The development shallowly embeds the value-formatting, text-fitting, overlay
and page-assembly logic of generator.py:

  * raw spreadsheet cell values become the inductive type RawValue;
  * Python Decimal values (sign and exact magnitude) become PyDecimal;
  * dates become PyDate;
  * reportlab.pdfbase.pdfmetrics.stringWidth(text, font, size), which returns
    size * (sum of the per-character widths, in thousandths of an em) / 1000,
    is embedded as stringWidth over an abstract per-character width table
    font : Char to rational;
  * the canvas draw calls of build_overlay become a list of DrawOp records;
  * pypdf page iteration and merging become assemble_pages over an abstract
    page type.

Sizes and widths are exact rationals.  The 0.5-point decrements performed by
the Python code on IEEE doubles are exact for these values, so the rational
model agrees with the float computation.
-/

namespace ProposalGen

/-! ## Python string primitives

Character-list models of the Python string methods used by generator.py
(str.strip, str.rstrip, str.replace with single-character arguments).
Whitespace is modelled as the ASCII whitespace characters recognised by
Python str.strip. -/

/-- ASCII whitespace, as stripped by Python str.strip / str.rstrip. -/
def isSpaceChar (c : Char) : Bool :=
  c = ' ' || c = '\t' || c = '\n' || c = '\r' || c = '\x0b' || c = '\x0c'

/-- Python str.strip on a character list. -/
def trimChars (l : List Char) : List Char :=
  ((l.dropWhile isSpaceChar).reverse.dropWhile isSpaceChar).reverse

/-- Python str.rstrip on a character list (generator.py line 280). -/
def rstripChars (l : List Char) : List Char :=
  (l.reverse.dropWhile isSpaceChar).reverse

/-- Python str.strip on a string. -/
def pyStrip (s : String) : String :=
  String.mk (trimChars s.data)

/-- Numeric value of one ASCII digit character. -/
def digitVal (c : Char) : ℕ :=
  c.toNat - 48

/-- Numeric value of a string of ASCII digits, most significant first. -/
def digitsVal (l : List Char) : ℕ :=
  l.foldl (fun a c => a * 10 + digitVal c) 0

/-! ## Raw cell values -/

/-- A calendar date, as produced by Python datetime.date. -/
structure PyDate where
  year : ℕ
  month : ℕ
  day : ℕ
deriving DecidableEq

/-- The dynamically typed value read from a spreadsheet cell: absent, a
number, a string, a date, or a datetime (spec section 3, Raw Cell Value).
A numeric cell value num q denotes a Python int or float whose str()
rendering is the decimal numeral of the rational q; the exact-decimal
conversion Decimal(str(value)) in generator.py line 187 therefore yields
exactly q.  (The IEEE float negative zero, whose str is "-0.0", is outside
this model.) -/
inductive RawValue where
  | none
  | num (q : ℚ)
  | str (s : String)
  | dateV (d : PyDate)
  | datetimeV (d : PyDate)

/-- Python str() of a raw value, as applied by _format_initials line 168 and
_format_text line 177.  Only the string case is exercised by any claim; the
numeric and date renderings are canonical stand-ins for the Python reprs. -/
def pyStr : RawValue → String
  | .none => "None"
  | .num q => toString q
  | .str s => s
  | .dateV d => Nat.repr d.year ++ "-" ++ (if d.month < 10 then "0" else "") ++ Nat.repr d.month
      ++ "-" ++ (if d.day < 10 then "0" else "") ++ Nat.repr d.day
  | .datetimeV d => Nat.repr d.year ++ "-" ++ (if d.month < 10 then "0" else "") ++ Nat.repr d.month
      ++ "-" ++ (if d.day < 10 then "0" else "") ++ Nat.repr d.day ++ " 00:00:00"

/-! ## Decimal normalisation (generator.py _normalize_number, lines 181-196) -/

/-- A Python decimal.Decimal finite value: a sign flag and a non-negative
exact magnitude.  The sign flag is kept separately because Decimal
distinguishes negative zero, which survives quantize and formatting. -/
structure PyDecimal where
  neg : Bool
  mag : ℚ
deriving DecidableEq

/-- The numeric value denoted by a PyDecimal. -/
def PyDecimal.val (d : PyDecimal) : ℚ :=
  if d.neg then -d.mag else d.mag

/-- The digits-and-point part of a Decimal literal: integer digits, an
optional point, optional fraction digits, at least one digit overall, and
nothing else. -/
def parseUnsignedDecimal (rest : List Char) : Option ℚ :=
  match rest.dropWhile Char.isDigit with
  | [] =>
    if (rest.takeWhile Char.isDigit).isEmpty then Option.none
    else some (digitsVal (rest.takeWhile Char.isDigit) : ℚ)
  | '.' :: r2 =>
    match r2.dropWhile Char.isDigit with
    | [] =>
      if (rest.takeWhile Char.isDigit).isEmpty && (r2.takeWhile Char.isDigit).isEmpty then
        Option.none
      else
        some ((digitsVal (rest.takeWhile Char.isDigit) : ℚ)
          + (digitsVal (r2.takeWhile Char.isDigit) : ℚ)
            / (10 : ℚ) ^ (r2.takeWhile Char.isDigit).length)
    | _ => Option.none
  | _ => Option.none

/-- The Python Decimal(string) constructor, restricted to ordinary finite
numeric literals: an optional sign, integer digits, and an optional
fractional part, with at least one digit overall.  Exponent notation and
the special values NaN and Infinity accepted by Decimal are outside the
model (no claim concerns them). -/
def parseDecimalChars (l : List Char) : Option PyDecimal :=
  match l with
  | '-' :: r => (parseUnsignedDecimal r).map (fun m => ⟨true, m⟩)
  | '+' :: r => (parseUnsignedDecimal r).map (fun m => ⟨false, m⟩)
  | _ => (parseUnsignedDecimal l).map (fun m => ⟨false, m⟩)

/-- generator.py _normalize_number (lines 181-196): none maps to none; a
numeric value is converted exactly via Decimal(str(value)); a string has
every dollar sign and comma removed, is stripped, and is parsed as a
Decimal literal, failure giving none; any other type gives none.  (The
isinstance(value, Decimal) branch of line 184 is unreachable for
spreadsheet cell values and has no RawValue case.) -/
def normalize_number (v : RawValue) : Option PyDecimal :=
  match v with
  | .none => Option.none
  | .num q => some ⟨decide (q < 0), |q|⟩
  | .str s =>
    let cleaned := trimChars ((s.data.filter (fun c => c ≠ '$')).filter (fun c => c ≠ ','))
    if cleaned.isEmpty then Option.none else parseDecimalChars cleaned
  | .dateV _ => Option.none
  | .datetimeV _ => Option.none

/-! ## Currency formatting (generator.py _format_currency, lines 139-144) -/

/-- Insert a comma after every third character; applied to the reversed
digit list this realises the thousands grouping of the Python format
specifier with a comma. -/
def group3 : List Char → List Char
  | a :: b :: c :: d :: rest => a :: b :: c :: ',' :: group3 (d :: rest)
  | l => l

/-- Thousands-grouped decimal rendering of a natural number. -/
def groupThousands (n : ℕ) : String :=
  String.mk (group3 (Nat.repr n).data.reverse).reverse

/-- Two-digit zero-padded rendering of a natural number below 100. -/
def pad2 (n : ℕ) : String :=
  if n < 10 then "0" ++ Nat.repr n else Nat.repr n

/-- generator.py _format_currency (lines 139-144): normalise, and on failure
return the missing-value sentinel; otherwise quantize to two decimal places
with ROUND_HALF_UP (ties on the magnitude round away from zero) and render
with a dollar sign, the Decimal sign, thousands grouping and two fraction
digits. -/
def format_currency (v : RawValue) (missing : String) : String :=
  match normalize_number v with
  | Option.none => missing
  | some d =>
    let cents := (⌊d.mag * 100 + 1 / 2⌋).toNat
    "$" ++ (if d.neg then "-" else "")
      ++ groupThousands (cents / 100) ++ "." ++ pad2 (cents % 100)

/-! ## Date parsing and formatting (generator.py lines 147-160 and 199-215) -/

/-- Gregorian leap year, as in Python datetime. -/
def isLeap (y : ℕ) : Bool :=
  y % 4 == 0 && (y % 100 != 0 || y % 400 == 0)

/-- Number of days in a month, as validated by datetime.date. -/
def daysInMonth (y m : ℕ) : ℕ :=
  if m = 2 then (if isLeap y then 29 else 28)
  else if m = 4 ∨ m = 6 ∨ m = 9 ∨ m = 11 then 30
  else 31

/-- The datetime.date constructor: validates year, month and day ranges,
raising (here: none) on an out-of-range component. -/
def mkDate? (y m d : ℕ) : Option PyDate :=
  if 1 ≤ y ∧ y ≤ 9999 ∧ 1 ≤ m ∧ m ≤ 12 ∧ 1 ≤ d ∧ d ≤ daysInMonth y m then
    some ⟨y, m, d⟩
  else Option.none

/-- Month and day fields as matched by strptime: one or two digits whose
value lies in the given range. -/
def validField (l : List Char) (lo hi : ℕ) : Prop :=
  1 ≤ l.length ∧ l.length ≤ 2 ∧ lo ≤ digitsVal l ∧ digitsVal l ≤ hi

instance (l : List Char) (lo hi : ℕ) : Decidable (validField l lo hi) := by
  unfold validField; infer_instance

/-- strptime with format %Y-%m-%d: exactly four year digits, dash, one or
two month digits valued 1-12, dash, one or two day digits valued 1-31,
end of string; then date() validation. -/
def parseISOChars (l : List Char) : Option PyDate :=
  let ys := l.takeWhile Char.isDigit
  let r1 := l.dropWhile Char.isDigit
  if ys.length = 4 then
    match r1 with
    | '-' :: r2 =>
      let ms := r2.takeWhile Char.isDigit
      let r3 := r2.dropWhile Char.isDigit
      if validField ms 1 12 then
        match r3 with
        | '-' :: r4 =>
          let ds := r4.takeWhile Char.isDigit
          let r5 := r4.dropWhile Char.isDigit
          if r5.isEmpty ∧ validField ds 1 31 then
            mkDate? (digitsVal ys) (digitsVal ms) (digitsVal ds)
          else Option.none
        | _ => Option.none
      else Option.none
    | _ => Option.none
  else Option.none

/-- strptime with format %m/%d/%Y. -/
def parseMDYChars (l : List Char) : Option PyDate :=
  let ms := l.takeWhile Char.isDigit
  let r1 := l.dropWhile Char.isDigit
  if validField ms 1 12 then
    match r1 with
    | '/' :: r2 =>
      let ds := r2.takeWhile Char.isDigit
      let r3 := r2.dropWhile Char.isDigit
      if validField ds 1 31 then
        match r3 with
        | '/' :: r4 =>
          let ys := r4.takeWhile Char.isDigit
          let r5 := r4.dropWhile Char.isDigit
          if ys.length = 4 ∧ r5.isEmpty then
            mkDate? (digitsVal ys) (digitsVal ms) (digitsVal ds)
          else Option.none
        | _ => Option.none
      else Option.none
    | _ => Option.none
  else Option.none

/-- strptime with format %m/%d/%y: a two-digit year, pivoting 00-68 to the
2000s and 69-99 to the 1900s. -/
def parseMDyChars (l : List Char) : Option PyDate :=
  let ms := l.takeWhile Char.isDigit
  let r1 := l.dropWhile Char.isDigit
  if validField ms 1 12 then
    match r1 with
    | '/' :: r2 =>
      let ds := r2.takeWhile Char.isDigit
      let r3 := r2.dropWhile Char.isDigit
      if validField ds 1 31 then
        match r3 with
        | '/' :: r4 =>
          let ys := r4.takeWhile Char.isDigit
          let r5 := r4.dropWhile Char.isDigit
          if ys.length = 2 ∧ r5.isEmpty then
            let y2 := digitsVal ys
            mkDate? (if y2 ≤ 68 then 2000 + y2 else 1900 + y2)
              (digitsVal ms) (digitsVal ds)
          else Option.none
        | _ => Option.none
      else Option.none
    | _ => Option.none
  else Option.none

/-- generator.py _parse_date (lines 199-215): none gives none; a datetime
gives its date part; a date passes through; a string is stripped and, if
non-empty, parsed with the formats %Y-%m-%d, %m/%d/%Y, %m/%d/%y tried in
that order, a ValueError moving on to the next format; any other type
gives none. -/
def parse_date (v : RawValue) : Option PyDate :=
  match v with
  | .none => Option.none
  | .num _ => Option.none
  | .datetimeV d => some d
  | .dateV d => some d
  | .str s =>
    let cleaned := trimChars s.data
    if cleaned.isEmpty then Option.none
    else
      match parseISOChars cleaned with
      | some d => some d
      | Option.none =>
        match parseMDYChars cleaned with
        | some d => some d
        | Option.none => parseMDyChars cleaned

/-- English month names as produced by strftime %B. -/
def monthName : ℕ → String
  | 1 => "January"
  | 2 => "February"
  | 3 => "March"
  | 4 => "April"
  | 5 => "May"
  | 6 => "June"
  | 7 => "July"
  | 8 => "August"
  | 9 => "September"
  | 10 => "October"
  | 11 => "November"
  | 12 => "December"
  | _ => ""

/-- Python str.upper on ASCII letters. -/
def upper (s : String) : String :=
  String.mk (s.data.map Char.toUpper)

/-- generator.py _format_date_cover (lines 147-152): uppercase month,
zero-padded two-digit day, year. -/
def format_date_cover (v : RawValue) (missing : String) : String :=
  match parse_date v with
  | Option.none => missing
  | some d => upper (monthName d.month) ++ " " ++ pad2 d.day ++ ", " ++ Nat.repr d.year

/-- generator.py _format_date_plan (lines 155-160): mixed-case month,
non-padded day, year. -/
def format_date_plan (v : RawValue) (missing : String) : String :=
  match parse_date v with
  | Option.none => missing
  | some d => monthName d.month ++ " " ++ Nat.repr d.day ++ ", " ++ Nat.repr d.year

/-! ## Initials and text formatting (generator.py lines 163-178) -/

/-- generator.py _format_initials (lines 163-171): none gives the missing
sentinel; otherwise str(value) is stripped; an empty result gives the
sentinel; otherwise the prepared_by_map lookup with the trimmed value
itself as the fallback. -/
def format_initials (v : RawValue) (prepared_by_map : List (String × String))
    (missing : String) : String :=
  match v with
  | .none => missing
  | _ =>
    let initials := pyStrip (pyStr v)
    if initials = "" then missing
    else (prepared_by_map.lookup initials).getD initials

/-- generator.py _format_text (lines 174-178). -/
def format_text (v : RawValue) (missing : String) : String :=
  match v with
  | .none => missing
  | _ =>
    let t := pyStrip (pyStr v)
    if t = "" then missing else t

/-- generator.py _format_value (lines 122-136): string-keyed dispatch on
the format kind, any unrecognised kind falling through to text. -/
def format_value (v : RawValue) (fmt : String) (prepared_by_map : List (String × String))
    (missing : String) : String :=
  if fmt = "currency" then format_currency v missing
  else if fmt = "date_cover" then format_date_cover v missing
  else if fmt = "date_plan" then format_date_plan v missing
  else if fmt = "initials" then format_initials v prepared_by_map missing
  else format_text v missing

/-! ## Text fitting (generator.py _fit_text, lines 257-285) -/

/-- reportlab pdfmetrics.stringWidth: the font size times the sum of the
per-character widths (given in thousandths of the size) divided by 1000.
The font is abstracted to its per-character width table. -/
def stringWidth (font : Char → ℚ) (s : String) (size : ℚ) : ℚ :=
  size * ((s.data.map font).sum) / 1000

/-- The while loop of _fit_text (lines 269-273): starting from the given
size, return the current size as soon as the measured width fits, else
decrement by 0.5; fall through (none) once the current size drops below
min_size. -/
def fit_loop (W : ℚ → ℚ) (mw minSize current : ℚ) : Option ℚ :=
  if h : minSize ≤ current then
    if W current ≤ mw then some current
    else fit_loop W mw minSize (current - 1 / 2)
  else Option.none
termination_by (⌊2 * (current - minSize)⌋ + 1).toNat
decreasing_by
  have e : (2 : ℚ) * (current - 1 / 2 - minSize) = 2 * (current - minSize) - (1 : ℤ) := by
    push_cast; ring
  have hf : (0 : ℤ) ≤ ⌊2 * (current - minSize)⌋ := by
    apply Int.floor_nonneg.mpr; linarith
  rw [e, Int.floor_sub_int]
  omega

/-- The descending sequence of sizes the while loop visits: start_size,
start_size - 0.5, start_size - 1.0, ..., down to the last value at or
above min_size (spec section 4.3). -/
def sizeChain (minSize current : ℚ) : List ℚ :=
  if h : minSize ≤ current then current :: sizeChain minSize (current - 1 / 2)
  else []
termination_by (⌊2 * (current - minSize)⌋ + 1).toNat
decreasing_by
  have e : (2 : ℚ) * (current - 1 / 2 - minSize) = 2 * (current - minSize) - (1 : ℤ) := by
    push_cast; ring
  have hf : (0 : ℤ) ≤ ⌊2 * (current - minSize)⌋ := by
    apply Int.floor_nonneg.mpr; linarith
  rw [e, Int.floor_sub_int]
  omega

/-- The Python ellipsis marker of _fit_text line 275. -/
def ellipsisStr : String := "..."

/-- The truncation loop of _fit_text (lines 279-283): for prefix lengths
k, k-1, ..., 1, right-strip the prefix, append the ellipsis, and return
the first candidate whose width at min_size fits. -/
def truncScan (font : Char → ℚ) (value : String) (mw minSize : ℚ) : ℕ → Option String
  | 0 => Option.none
  | k + 1 =>
    let candidate := String.mk (rstripChars (value.data.take (k + 1))) ++ ellipsisStr
    if stringWidth font candidate minSize ≤ mw then some candidate
    else truncScan font value mw minSize k

/-- generator.py _fit_text (lines 257-285).  An empty string or a falsy
max_width (absent, or equal to 0) returns the text unchanged at the start
size.  Otherwise the shrink loop runs; if it fails, the ellipsis alone is
returned at min_size when even it does not fit, else the truncation scan
runs, with the bare ellipsis as the final fallback. -/
def fit_text (font : Char → ℚ) (value : String) (size : ℚ) (maxWidth : Option ℚ)
    (minSize : ℚ) : String × ℚ :=
  if value = "" then (value, size)
  else
    match maxWidth with
    | Option.none => (value, size)
    | some mw =>
      if mw = 0 then (value, size)
      else
        match fit_loop (fun c => stringWidth font value c) mw minSize size with
        | some s => (value, s)
        | Option.none =>
          if mw < stringWidth font ellipsisStr minSize then (ellipsisStr, minSize)
          else
            match truncScan font value mw minSize value.length with
            | some c => (c, minSize)
            | Option.none => (ellipsisStr, minSize)

/-! ## Overlay rendering (generator.py _build_overlay, lines 218-254) -/

/-- A placement spec from the coordinates config, with the default values
of _build_overlay lines 230-238 already resolved (x, y default 0, font
Helvetica, size 10, align left, max_width absent, min_size 8). -/
structure FieldSpec where
  x : ℚ
  y : ℚ
  font : String
  size : ℚ
  align : String
  maxWidth : Option ℚ
  minSize : ℚ
deriving DecidableEq

/-- One text-drawing call issued on the overlay canvas (drawString,
drawRightString or drawCentredString, per the align field). -/
structure DrawOp where
  x : ℚ
  y : ℚ
  font : String
  size : ℚ
  align : String
  text : String
deriving DecidableEq

/-- A rendered single-page overlay: the page size it was created with and
the draw calls issued on it, in order. -/
structure Overlay where
  pageSize : ℚ × ℚ
  ops : List DrawOp
deriving DecidableEq

/-- generator.py _build_overlay (lines 218-254): for each configured field
in order, look its formatted value up; a missing or empty value draws
nothing; otherwise the value is fitted and one draw call is recorded.
The metrics argument resolves a font name to its width table. -/
def build_overlay (metrics : String → Char → ℚ) (pageSize : ℚ × ℚ)
    (pageFields : List (String × FieldSpec))
    (fieldValues : List (String × String)) : Overlay :=
  { pageSize := pageSize
    ops := pageFields.filterMap (fun nameSpec =>
      match fieldValues.lookup nameSpec.1 with
      | Option.none => Option.none
      | some v =>
        if v = "" then Option.none
        else
          let spec := nameSpec.2
          let fitted := fit_text (metrics spec.font) v spec.size spec.maxWidth spec.minSize
          some ⟨spec.x, spec.y, spec.font, fitted.2, spec.align, fitted.1⟩) }

/-! ## Document assembly (generator.py generate_proposal_pdf, lines 45-59) -/

/-- The fate of one template page: passed through untouched, or merged
with a rendered overlay (page.merge_page draws the overlay on top while
keeping the page content, so the original page is retained here). -/
inductive AssembledPage (P : Type) where
  | passthrough (page : P)
  | merged (page : P) (overlay : Overlay)
deriving DecidableEq

/-- The template page an assembled page was built from. -/
def AssembledPage.original {P : Type} : AssembledPage P → P
  | .passthrough p => p
  | .merged p _ => p

/-- The page loop of generate_proposal_pdf (lines 48-59): pages are walked
in order with 1-based indices; the key page_<i> is looked up in the
coordinates config; a missing or empty (falsy) entry passes the page
through; otherwise the overlay is built at the page size and merged.
The page type is abstract; pageSize extracts a page's mediabox size. -/
def assemble_step {P : Type} (metrics : String → Char → ℚ) (pageSize : P → ℚ × ℚ)
    (coords : List (String × List (String × FieldSpec)))
    (fieldValues : List (String × String)) (ip : ℕ × P) : AssembledPage P :=
  match coords.lookup ("page_" ++ Nat.repr (ip.1 + 1)) with
  | Option.none => .passthrough ip.2
  | some pageFields =>
    if pageFields.isEmpty then .passthrough ip.2
    else .merged ip.2 (build_overlay metrics (pageSize ip.2) pageFields fieldValues)

def assemble_pages {P : Type} (metrics : String → Char → ℚ) (pageSize : P → ℚ × ℚ)
    (coords : List (String × List (String × FieldSpec)))
    (fieldValues : List (String × String)) (pages : List P) : List (AssembledPage P) :=
  pages.enum.map (assemble_step metrics pageSize coords fieldValues)

end ProposalGen


namespace ProposalGen

/-! ## Properties of the text fitter -/

theorem fit_loop_eq_find (W : ℚ → ℚ) (mw minSize current : ℚ) :
    fit_loop W mw minSize current
      = (sizeChain minSize current).find? (fun s => W s ≤ mw) := by
  induction current using sizeChain.induct minSize with
  | case1 current h ih =>
    rw [fit_loop, sizeChain]
    rw [dif_pos h, dif_pos h, List.find?_cons]
    by_cases hw : W current ≤ mw
    · simp [hw]
    · simp only [decide_eq_false hw, if_neg hw]
      simpa using ih
  | case2 current h =>
    rw [fit_loop, sizeChain]
    rw [dif_neg h, dif_neg h]
    rfl

theorem fit_loop_some {W : ℚ → ℚ} {mw minSize current s : ℚ}
    (h : fit_loop W mw minSize current = some s) : W s ≤ mw := by
  rw [fit_loop_eq_find] at h
  simpa using List.find?_some h

theorem mem_sizeChain_le {minSize current s : ℚ}
    (h : s ∈ sizeChain minSize current) : minSize ≤ s ∧ s ≤ current := by
  induction current using sizeChain.induct minSize with
  | case1 current hc ih =>
    rw [sizeChain, dif_pos hc] at h
    rcases List.mem_cons.mp h with rfl | h2
    · exact ⟨hc, le_refl _⟩
    · rcases ih h2 with ⟨ha, hb⟩
      exact ⟨ha, by linarith⟩
  | case2 current hc =>
    rw [sizeChain, dif_neg hc] at h
    simp at h

theorem sizeChain_sorted (minSize current : ℚ) :
    (sizeChain minSize current).Sorted (fun a b => b < a) := by
  induction current using sizeChain.induct minSize with
  | case1 current hc ih =>
    rw [sizeChain, dif_pos hc]
    refine List.sorted_cons.mpr ⟨?_, ih⟩
    intro b hb
    have := (mem_sizeChain_le hb).2
    linarith
  | case2 current hc =>
    rw [sizeChain, dif_neg hc]
    exact List.sorted_nil

theorem find?_eq_of_sorted_max {l : List ℚ} {p : ℚ → Bool} {s : ℚ}
    (hsort : l.Sorted (fun a b => b < a)) (hmem : s ∈ l) (hp : p s = true)
    (hmax : ∀ t ∈ l, p t = true → t ≤ s) : l.find? p = some s := by
  induction l with
  | nil => simp at hmem
  | cons a rest ih =>
    rcases List.sorted_cons.mp hsort with ⟨ha, hrest⟩
    by_cases hpa : p a = true
    · have has : a ≤ s := hmax a (List.mem_cons_self a rest) hpa
      have : s = a := by
        rcases List.mem_cons.mp hmem with rfl | hs2
        · rfl
        · have := ha s hs2
          linarith
      subst this
      simp [List.find?_cons, hpa]
    · have hsa : s ≠ a := fun he => hpa (he ▸ hp)
      have hs2 : s ∈ rest := by
        rcases List.mem_cons.mp hmem with rfl | h2
        · exact absurd rfl hsa
        · exact h2
      have hpaf : p a = false := Bool.eq_false_iff.mpr hpa
      rw [List.find?_cons]
      simp only [hpaf]
      exact ih hrest hs2 (fun t ht hpt => hmax t (List.mem_cons_of_mem a ht) hpt)

theorem truncScan_some {font : Char → ℚ} {value : String} {mw minSize : ℚ} {k : ℕ}
    {c : String} (h : truncScan font value mw minSize k = some c) :
    stringWidth font c minSize ≤ mw := by
  induction k with
  | zero => simp [truncScan] at h
  | succ n ih =>
    rw [truncScan] at h
    split at h
    · cases h
      assumption
    · exact ih h

end ProposalGen

namespace ProposalGen

/-- C1: for a non-empty string and positive max width, fitting terminates (the
function is total) and the returned text measures within max width at the
returned size, except in the one case the code and spec carve out: when even
the bare ellipsis exceeds max width at min size, the ellipsis is returned at
min size and overflows. -/
theorem fit_text_width_bound (font : Char → ℚ) (value : String) (size mw minSize : ℚ)
    (hv : value ≠ "") (hmw : 0 < mw) :
    stringWidth font (fit_text font value size (some mw) minSize).1
        (fit_text font value size (some mw) minSize).2 ≤ mw
    ∨ (fit_text font value size (some mw) minSize = (ellipsisStr, minSize)
        ∧ mw < stringWidth font ellipsisStr minSize) := by
  have hmw0 : mw ≠ 0 := ne_of_gt hmw
  unfold fit_text
  rw [if_neg hv]
  simp only [if_neg hmw0]
  rcases hl : fit_loop (fun c => stringWidth font value c) mw minSize size with _ | s
  · by_cases he : mw < stringWidth font ellipsisStr minSize
    · right
      simp [he]
    · rcases ht : truncScan font value mw minSize value.length with _ | c
      · left
        simp only [if_neg he, ht]
        exact le_of_not_lt he
      · left
        simp only [if_neg he, ht]
        exact truncScan_some ht
  · left
    simpa using fit_loop_some hl

/-- C1 counterexample: with a font giving every character width 500/1000 em,
the text a at start size 10, max width 1 and min size 8 comes back as the
bare ellipsis at size 8, whose measured width 12 exceeds the max width 1. -/
theorem fit_text_width_bound_cex :
    fit_text (fun _ => 500) "a" 10 (some 1) 8 = (ellipsisStr, 8)
    ∧ ¬ stringWidth (fun _ => 500)
        (fit_text (fun _ => 500) "a" 10 (some 1) 8).1
        (fit_text (fun _ => 500) "a" 10 (some 1) 8).2 ≤ 1 := by
  have hdata : ("a" : String).data = ['a'] := rfl
  have hedata : (ellipsisStr : String).data = ['.', '.', '.'] := rfl
  have hloop : fit_loop (fun c => stringWidth (fun _ => 500) "a" c) 1 8 10 = Option.none := by
    rw [fit_loop_eq_find]
    apply List.find?_eq_none.mpr
    intro s hs
    have h8 : (8 : ℚ) ≤ s := (mem_sizeChain_le hs).1
    simp only [stringWidth, hdata, decide_eq_true_eq, List.map_cons, List.map_nil,
      List.sum_cons, List.sum_nil]
    intro hle
    nlinarith
  have hfit : fit_text (fun _ => 500) "a" 10 (some 1) 8 = (ellipsisStr, 8) := by
    unfold fit_text
    rw [if_neg (by decide : ¬("a" : String) = "")]
    simp only [if_neg (by norm_num : (1 : ℚ) ≠ 0), hloop]
    rw [if_pos]
    simp only [stringWidth, hedata]
    norm_num
  refine ⟨hfit, ?_⟩
  rw [hfit]
  simp only [stringWidth, hedata]
  norm_num

end ProposalGen

namespace ProposalGen

/-- Witness for the C1 theorem at a concrete input. -/
theorem fit_text_width_bound_witness :
    ("a" : String) ≠ "" ∧ (0 : ℚ) < 100
    ∧ (stringWidth (fun _ => 500) (fit_text (fun _ => 500) "a" 10 (some 100) 8).1
          (fit_text (fun _ => 500) "a" 10 (some 100) 8).2 ≤ 100
        ∨ (fit_text (fun _ => 500) "a" 10 (some 100) 8 = (ellipsisStr, 8)
            ∧ 100 < stringWidth (fun _ => 500) ellipsisStr 8)) :=
  ⟨by decide, by norm_num,
    fit_text_width_bound (fun _ => 500) "a" 10 100 8 (by decide) (by norm_num)⟩

/-- C2: with a configured (non-falsy) max width and a non-empty text that does
not fit at the start size, the fitter returns the full text at the largest
size of the chain start, start - 0.5, start - 1.0, ..., min_size whose
measured full-text width fits; the chain is exactly the sizes the loop
visits, and the first fitting one in visiting order is the largest. -/
theorem fit_text_first_fit (font : Char → ℚ) (value : String) (size mw minSize s : ℚ)
    (hv : value ≠ "") (hmw : mw ≠ 0)
    (hstart : ¬ stringWidth font value size ≤ mw)
    (hmem : s ∈ sizeChain minSize size)
    (hfit : stringWidth font value s ≤ mw)
    (hmax : ∀ t ∈ sizeChain minSize size, stringWidth font value t ≤ mw → t ≤ s) :
    fit_text font value size (some mw) minSize = (value, s) := by
  have hloop : fit_loop (fun c => stringWidth font value c) mw minSize size = some s := by
    rw [fit_loop_eq_find]
    exact find?_eq_of_sorted_max (sizeChain_sorted minSize size) hmem
      (by simpa using hfit) (fun t ht hpt => hmax t ht (by simpa using hpt))
  unfold fit_text
  rw [if_neg hv]
  simp only [if_neg hmw, hloop]

/-- Witness for the C2 theorem: with all characters 500/1000 em wide, the
text abc at start size 10 and max width 13 first fits at size 8.5. -/
theorem fit_text_first_fit_witness :
    fit_text (fun _ => 500) "abc" 10 (some 13) 8 = ("abc", 17 / 2) := by
  have hchain : sizeChain 8 10 = [10, 19 / 2, 9, 17 / 2, 8] := by
    rw [sizeChain]; norm_num
    rw [sizeChain]; norm_num
    rw [sizeChain]; norm_num
    rw [sizeChain]; norm_num
    rw [sizeChain]; norm_num
    rw [sizeChain]; norm_num
  have hdata : ("abc" : String).data = ['a', 'b', 'c'] := rfl
  exact fit_text_first_fit (fun _ => 500) "abc" 10 13 8 (17 / 2)
    (by decide) (by norm_num)
    (by simp only [stringWidth, hdata]; norm_num)
    (by rw [hchain]; norm_num)
    (by simp only [stringWidth, hdata]; norm_num)
    (by
      rw [hchain]
      intro t ht
      simp only [stringWidth, hdata] at *
      fin_cases ht <;> norm_num)

/-- C3 (amended): fitting is idempotent on already-fitting input provided the
configured min size does not exceed the start size: a non-empty text whose
width at the start size is within the configured max width comes back
unchanged at the start size. -/
theorem fit_text_idempotent (font : Char → ℚ) (value : String) (size mw minSize : ℚ)
    (hv : value ≠ "") (hms : minSize ≤ size)
    (hfit : stringWidth font value size ≤ mw) :
    fit_text font value size (some mw) minSize = (value, size) := by
  by_cases hmw : mw = 0
  · unfold fit_text
    rw [if_neg hv]
    simp only [if_pos hmw]
  · have hloop : fit_loop (fun c => stringWidth font value c) mw minSize size
        = some size := by
      rw [fit_loop, dif_pos hms, if_pos hfit]
    unfold fit_text
    rw [if_neg hv]
    simp only [if_neg hmw, hloop]

/-- Witness for the C3 theorem at a concrete input. -/
theorem fit_text_idempotent_witness :
    fit_text (fun _ => 500) "ab" 10 (some 100) 8 = ("ab", 10) := by
  have hdata : ("ab" : String).data = ['a', 'b'] := rfl
  exact fit_text_idempotent (fun _ => 500) "ab" 10 100 8 (by decide) (by norm_num)
    (by simp only [stringWidth, hdata]; norm_num)

/-- C3 counterexample: with min_size 8 above start size 5, the text a fits at
the start size (width 0.5 at most width 5) yet the fitter does not return it
unchanged: the loop never runs and truncation yields a dotted string at
min_size 8. -/
theorem fit_text_idempotent_cex :
    stringWidth (fun _ => 100) "a" 5 ≤ 5
    ∧ fit_text (fun _ => 100) "a" 5 (some 5) 8 = ("a...", 8)
    ∧ ("a...", (8 : ℚ)) ≠ ("a", (5 : ℚ)) := by
  have hdata : ("a" : String).data = ['a'] := rfl
  have hedata : (ellipsisStr : String).data = ['.', '.', '.'] := rfl
  refine ⟨by simp only [stringWidth, hdata]; norm_num, ?_, ?_⟩
  · have hloop : fit_loop (fun c => stringWidth (fun _ => 100) "a" c) 5 8 5
        = Option.none := by
      rw [fit_loop, dif_neg (by norm_num : ¬(8 : ℚ) ≤ 5)]
    have htrunc : truncScan (fun _ => 100) "a" 5 8 1 = some "a..." := by
      rw [truncScan]
      rw [if_pos]
      · rfl
      · have : String.mk (rstripChars (("a" : String).data.take 1)) ++ ellipsisStr
            = "a..." := by rfl
        rw [this]
        have : ("a..." : String).data = ['a', '.', '.', '.'] := rfl
        simp only [stringWidth, this]
        norm_num
    unfold fit_text
    rw [if_neg (by decide : ¬("a" : String) = "")]
    simp only [if_neg (by norm_num : (5 : ℚ) ≠ 0), hloop]
    rw [if_neg]
    · have hlen : ("a" : String).length = 1 := rfl
      rw [hlen, htrunc]
    · simp only [stringWidth, hedata]
      norm_num
  · intro h
    have := congrArg Prod.snd h
    norm_num at this

/-- C10: a configured max width equal to 0 is falsy in Python and is treated
exactly like an absent max width: the text comes back unchanged at the start
size, with no width constraint enforced. -/
theorem fit_text_falsy_max_width (font : Char → ℚ) (value : String) (size minSize : ℚ)
    (hv : value ≠ "") :
    fit_text font value size (some 0) minSize = (value, size)
    ∧ fit_text font value size Option.none minSize = (value, size) := by
  constructor
  · unfold fit_text
    rw [if_neg hv]
    simp
  · unfold fit_text
    rw [if_neg hv]

/-- Witness for the C10 theorem at a concrete input. -/
theorem fit_text_falsy_max_width_witness :
    fit_text (fun _ => 500) "hello" 10 (some 0) 8 = ("hello", 10)
    ∧ fit_text (fun _ => 500) "hello" 10 Option.none 8 = ("hello", 10) :=
  fit_text_falsy_max_width (fun _ => 500) "hello" 10 8 (by decide)

end ProposalGen
namespace ProposalGen

/-! ## Properties of currency normalisation and formatting -/

theorem parseUnsignedDecimal_nonneg {l : List Char} {m : ℚ}
    (h : parseUnsignedDecimal l = some m) : 0 ≤ m := by
  unfold parseUnsignedDecimal at h
  split at h
  · split at h
    · exact absurd h (by simp)
    · cases h
      exact Nat.cast_nonneg _
  · split at h
    · split at h
      · exact absurd h (by simp)
      · cases h
        refine add_nonneg (Nat.cast_nonneg _) (div_nonneg (Nat.cast_nonneg _) ?_)
        positivity
    · exact absurd h (by simp)
  · exact absurd h (by simp)

theorem parseDecimalChars_mag_nonneg {l : List Char} {d : PyDecimal}
    (h : parseDecimalChars l = some d) : 0 ≤ d.mag := by
  unfold parseDecimalChars at h
  split at h <;>
  · rcases Option.map_eq_some'.mp h with ⟨m, hm, rfl⟩
    exact parseUnsignedDecimal_nonneg hm

theorem normalize_number_mag_nonneg {v : RawValue} {d : PyDecimal}
    (h : normalize_number v = some d) : 0 ≤ d.mag := by
  cases v with
  | none => exact absurd h (by simp [normalize_number])
  | num q =>
    rw [normalize_number] at h
    cases h
    exact abs_nonneg q
  | str s =>
    rw [normalize_number] at h
    split at h
    · exact absurd h (by simp)
    · exact parseDecimalChars_mag_nonneg h
  | dateV d2 => exact absurd h (by simp [normalize_number])
  | datetimeV d2 => exact absurd h (by simp [normalize_number])

/-- A finite Decimal with non-negative magnitude is determined by its
numeric value as soon as that value is non-zero (only zero carries an
ambiguous sign). -/
theorem PyDecimal.eq_of_val {d1 d2 : PyDecimal} (h1 : 0 ≤ d1.mag) (h2 : 0 ≤ d2.mag)
    (hv : d1.val = d2.val) (hnz : d1.val ≠ 0) : d1 = d2 := by
  obtain ⟨n1, m1⟩ := d1
  obtain ⟨n2, m2⟩ := d2
  simp only [PyDecimal.val] at hv hnz
  simp only at h1 h2
  cases n1 <;> cases n2
  · simp only [Bool.false_eq_true, if_false] at hv
    rw [hv]
  · exfalso
    simp only [Bool.false_eq_true, if_false, if_true] at hv hnz
    have hm : m1 = 0 := le_antisymm (by linarith) h1
    exact hnz hm
  · exfalso
    simp only [Bool.false_eq_true, if_false, if_true] at hv hnz
    have hm : m1 = 0 := le_antisymm (by linarith) h1
    rw [hm] at hnz
    exact hnz neg_zero
  · simp only [if_true] at hv
    rw [neg_injective hv]

end ProposalGen
namespace ProposalGen

/-- C4 (amended): currency formatting is a function of the parsed Decimal:
any two inputs normalising to the same nonzero numeric value format
identically; a none value, or a string normalisation fails on, gives the
missing sentinel; the three example spellings of 1234.50 all render as
a dollar sign with thousands grouping and two fraction digits.  (Equal
zero amounts may differ: Decimal keeps the written sign of zero.) -/
theorem format_currency_same_amount (v1 v2 : RawValue) (d1 d2 : PyDecimal) (mv : String)
    (h1 : normalize_number v1 = some d1) (h2 : normalize_number v2 = some d2)
    (hval : d1.val = d2.val) (hnz : d1.val ≠ 0) :
    format_currency v1 mv = format_currency v2 mv
    ∧ format_currency RawValue.none mv = mv
    ∧ (∀ v, normalize_number v = Option.none → format_currency v mv = mv)
    ∧ format_currency (RawValue.str "1234.50") "N/A" = "$1,234.50"
    ∧ format_currency (RawValue.str "$1,234.50") "N/A" = "$1,234.50"
    ∧ format_currency (RawValue.num (2469 / 2)) "N/A" = "$1,234.50" := by
  have hfl : ⌊(((1234 : ℕ) : ℚ) + ((50 : ℕ) : ℚ) / (10 : ℚ) ^ (2 : ℕ)) * 100 + 1 / 2⌋
      = 123450 := by
    rw [Int.floor_eq_iff]
    push_cast
    norm_num
  refine ⟨?_, by rw [format_currency]; rfl, fun v hv => by rw [format_currency, hv], ?_, ?_, ?_⟩
  · have hd : d1 = d2 :=
      PyDecimal.eq_of_val (normalize_number_mag_nonneg h1)
        (normalize_number_mag_nonneg h2) hval hnz
    rw [format_currency, format_currency, h1, h2, hd]
  · have hp : normalize_number (RawValue.str "1234.50")
        = some ⟨false, ((1234 : ℕ) : ℚ) + ((50 : ℕ) : ℚ) / (10 : ℚ) ^ (2 : ℕ)⟩ := rfl
    rw [format_currency, hp]
    simp only [hfl]
    rfl
  · have hp : normalize_number (RawValue.str "$1,234.50")
        = some ⟨false, ((1234 : ℕ) : ℚ) + ((50 : ℕ) : ℚ) / (10 : ℚ) ^ (2 : ℕ)⟩ := rfl
    rw [format_currency, hp]
    simp only [hfl]
    rfl
  · have hdec : decide ((2469 : ℚ) / 2 < 0) = false :=
      decide_eq_false_iff_not.mpr (by norm_num)
    have hp : normalize_number (RawValue.num (2469 / 2)) = some ⟨false, 2469 / 2⟩ := by
      rw [normalize_number, hdec, abs_of_nonneg (by norm_num : (0 : ℚ) ≤ 2469 / 2)]
    rw [format_currency, hp]
    have hfl2 : ⌊(2469 / 2 : ℚ) * 100 + 1 / 2⌋ = 123450 := by
      rw [Int.floor_eq_iff]
      norm_num
    simp only [hfl2]
    rfl

/-- Witness for the C4 theorem at concrete inputs: two spellings of the
same nonzero amount format identically. -/
theorem format_currency_same_amount_witness :
    normalize_number (RawValue.str "1234.50")
      = some ⟨false, ((1234 : ℕ) : ℚ) + ((50 : ℕ) : ℚ) / (10 : ℚ) ^ (2 : ℕ)⟩
    ∧ normalize_number (RawValue.str "$1,234.50")
      = some ⟨false, ((1234 : ℕ) : ℚ) + ((50 : ℕ) : ℚ) / (10 : ℚ) ^ (2 : ℕ)⟩
    ∧ PyDecimal.val ⟨false, ((1234 : ℕ) : ℚ) + ((50 : ℕ) : ℚ) / (10 : ℚ) ^ (2 : ℕ)⟩ ≠ 0
    ∧ format_currency (RawValue.str "1234.50") "N/A"
      = format_currency (RawValue.str "$1,234.50") "N/A" :=
  ⟨rfl, rfl, by norm_num [PyDecimal.val],
    (format_currency_same_amount (RawValue.str "1234.50") (RawValue.str "$1,234.50")
      ⟨false, ((1234 : ℕ) : ℚ) + ((50 : ℕ) : ℚ) / (10 : ℚ) ^ (2 : ℕ)⟩
      ⟨false, ((1234 : ℕ) : ℚ) + ((50 : ℕ) : ℚ) / (10 : ℚ) ^ (2 : ℕ)⟩
      "N/A" rfl rfl rfl (by norm_num [PyDecimal.val])).1⟩

/-- C4 counterexample: the plain numeric strings -0 and 0 denote the same
monetary amount, zero, yet format differently: Decimal keeps the sign of
negative zero through quantize and formatting, so -0 renders as a signed
zero dollar string. -/
theorem format_currency_same_amount_cex :
    (normalize_number (RawValue.str "-0")).map PyDecimal.val = some 0
    ∧ (normalize_number (RawValue.str "0")).map PyDecimal.val = some 0
    ∧ format_currency (RawValue.str "-0") "N/A" = "$-0.00"
    ∧ format_currency (RawValue.str "0") "N/A" = "$0.00"
    ∧ ("$-0.00" : String) ≠ "$0.00" := by
  have hzfl : ⌊((0 : ℕ) : ℚ) * 100 + 1 / 2⌋ = 0 := by
    rw [Int.floor_eq_iff]
    push_cast
    norm_num
  have hpn : normalize_number (RawValue.str "-0") = some ⟨true, ((0 : ℕ) : ℚ)⟩ := rfl
  have hpp : normalize_number (RawValue.str "0") = some ⟨false, ((0 : ℕ) : ℚ)⟩ := rfl
  refine ⟨?_, ?_, ?_, ?_, by decide⟩
  · rw [hpn]
    simp [PyDecimal.val]
  · rw [hpp]
    simp [PyDecimal.val]
  · rw [format_currency, hpn]
    simp only [hzfl]
    rfl
  · rw [format_currency, hpp]
    simp only [hzfl]
    rfl

/-- C5: currency rounding is exact-decimal half-up: 2.005, whether arriving
as a numeric cell or as the string 2.005, formats to two dollars and one
cent (bankers rounding or binary-float rounding would both give 2.00). -/
theorem format_currency_half_up :
    format_currency (RawValue.str "2.005") "N/A" = "$2.01"
    ∧ format_currency (RawValue.num (401 / 200)) "N/A" = "$2.01" := by
  constructor
  · have hp : normalize_number (RawValue.str "2.005")
        = some ⟨false, ((2 : ℕ) : ℚ) + ((5 : ℕ) : ℚ) / (10 : ℚ) ^ (3 : ℕ)⟩ := rfl
    rw [format_currency, hp]
    have hfl : ⌊(((2 : ℕ) : ℚ) + ((5 : ℕ) : ℚ) / (10 : ℚ) ^ (3 : ℕ)) * 100 + 1 / 2⌋
        = 201 := by
      rw [Int.floor_eq_iff]
      push_cast
      norm_num
    simp only [hfl]
    rfl
  · have hdec : decide ((401 : ℚ) / 200 < 0) = false :=
      decide_eq_false_iff_not.mpr (by norm_num)
    have hp : normalize_number (RawValue.num (401 / 200)) = some ⟨false, 401 / 200⟩ := by
      rw [normalize_number, hdec, abs_of_nonneg (by norm_num : (0 : ℚ) ≤ 401 / 200)]
    rw [format_currency, hp]
    have hfl : ⌊(401 / 200 : ℚ) * 100 + 1 / 2⌋ = 201 := by
      rw [Int.floor_eq_iff]
      norm_num
    simp only [hfl]
    rfl

end ProposalGen

namespace ProposalGen

/-! ## Properties of date parsing and formatting -/

/-- Canonical zero-padded two-digit character rendering of a number. -/
def pad2c (n : ℕ) : List Char :=
  [Nat.digitChar (n / 10 % 10), Nat.digitChar (n % 10)]

/-- Canonical zero-padded four-digit character rendering of a number. -/
def pad4c (n : ℕ) : List Char :=
  [Nat.digitChar (n / 1000 % 10), Nat.digitChar (n / 100 % 10),
    Nat.digitChar (n / 10 % 10), Nat.digitChar (n % 10)]

/-- The canonical YYYY-MM-DD spelling of a date. -/
def isoChars (d : PyDate) : List Char :=
  pad4c d.year ++ '-' :: (pad2c d.month ++ '-' :: pad2c d.day)

/-- The canonical MM/DD/YYYY spelling of a date. -/
def mdyChars (d : PyDate) : List Char :=
  pad2c d.month ++ '/' :: (pad2c d.day ++ '/' :: pad4c d.year)

theorem digitChar_isDigit {n : ℕ} (h : n < 10) : (Nat.digitChar n).isDigit = true := by
  interval_cases n <;> rfl

theorem digitChar_not_space {n : ℕ} (h : n < 10) :
    isSpaceChar (Nat.digitChar n) = false := by
  interval_cases n <;> rfl

theorem digitVal_digitChar {n : ℕ} (h : n < 10) : digitVal (Nat.digitChar n) = n := by
  interval_cases n <;> rfl

theorem digitsVal_pad2c {n : ℕ} (h : n < 100) : digitsVal (pad2c n) = n := by
  have h1 : n / 10 % 10 < 10 := Nat.mod_lt _ (by norm_num)
  have h2 : n % 10 < 10 := Nat.mod_lt _ (by norm_num)
  simp only [digitsVal, pad2c, List.foldl, digitVal_digitChar h1, digitVal_digitChar h2]
  omega

theorem digitsVal_pad4c {n : ℕ} (h : n < 10000) : digitsVal (pad4c n) = n := by
  have h1 : n / 1000 % 10 < 10 := Nat.mod_lt _ (by norm_num)
  have h2 : n / 100 % 10 < 10 := Nat.mod_lt _ (by norm_num)
  have h3 : n / 10 % 10 < 10 := Nat.mod_lt _ (by norm_num)
  have h4 : n % 10 < 10 := Nat.mod_lt _ (by norm_num)
  simp only [digitsVal, pad4c, List.foldl, digitVal_digitChar h1, digitVal_digitChar h2,
    digitVal_digitChar h3, digitVal_digitChar h4]
  omega

theorem pad2c_isDigit (n : ℕ) : ∀ c ∈ pad2c n, c.isDigit = true := by
  intro c hc
  simp only [pad2c, List.mem_cons, List.not_mem_nil, or_false] at hc
  rcases hc with rfl | rfl
  · exact digitChar_isDigit (Nat.mod_lt _ (by norm_num))
  · exact digitChar_isDigit (Nat.mod_lt _ (by norm_num))

theorem pad4c_isDigit (n : ℕ) : ∀ c ∈ pad4c n, c.isDigit = true := by
  intro c hc
  simp only [pad4c, List.mem_cons, List.not_mem_nil, or_false] at hc
  rcases hc with rfl | rfl | rfl | rfl <;>
    exact digitChar_isDigit (Nat.mod_lt _ (by norm_num))

theorem dropWhile_eq_self_of {p : Char → Bool} {l : List Char}
    (h : ∀ c ∈ l, p c = false) : l.dropWhile p = l := by
  cases l with
  | nil => rfl
  | cons a t =>
    rw [List.dropWhile_cons]
    simp [h a (List.mem_cons_self a t)]

theorem trimChars_eq_self {l : List Char} (h : ∀ c ∈ l, isSpaceChar c = false) :
    trimChars l = l := by
  unfold trimChars
  rw [dropWhile_eq_self_of h,
    dropWhile_eq_self_of (fun c hc => h c (List.mem_reverse.mp hc)),
    List.reverse_reverse]

theorem takeWhile_append_sep {dl : List Char} {sep : Char} {rest : List Char}
    (hd : ∀ c ∈ dl, c.isDigit = true) (hs : sep.isDigit = false) :
    (dl ++ sep :: rest).takeWhile Char.isDigit = dl
    ∧ (dl ++ sep :: rest).dropWhile Char.isDigit = sep :: rest := by
  induction dl with
  | nil =>
    constructor
    · rw [List.nil_append, List.takeWhile_cons, hs]
      simp
    · rw [List.nil_append, List.dropWhile_cons, hs]
      simp
  | cons a t ih =>
    have ha : a.isDigit = true := hd a (List.mem_cons_self a t)
    have iht := ih (fun c hc => hd c (List.mem_cons_of_mem a hc))
    constructor
    · rw [List.cons_append, List.takeWhile_cons, ha]
      simp only [iht.1, if_pos trivial]
    · rw [List.cons_append, List.dropWhile_cons, ha]
      simp only [iht.2, if_pos trivial]

theorem takeWhile_all_digits {dl : List Char} (hd : ∀ c ∈ dl, c.isDigit = true) :
    dl.takeWhile Char.isDigit = dl ∧ dl.dropWhile Char.isDigit = [] := by
  induction dl with
  | nil => exact ⟨rfl, rfl⟩
  | cons a t ih =>
    have ha : a.isDigit = true := hd a (List.mem_cons_self a t)
    have iht := ih (fun c hc => hd c (List.mem_cons_of_mem a hc))
    constructor
    · rw [List.takeWhile_cons, ha]
      simp only [iht.1, if_pos trivial]
    · rw [List.dropWhile_cons, ha]
      simp only [iht.2, if_pos trivial]

end ProposalGen

namespace ProposalGen

theorem daysInMonth_le_31 (y m : ℕ) : daysInMonth y m ≤ 31 := by
  rw [daysInMonth]
  split
  · split <;> norm_num
  · split <;> norm_num

theorem parseISOChars_iso (y m dd : ℕ) (hy1 : 1 ≤ y) (hy : y ≤ 9999)
    (hm1 : 1 ≤ m) (hm : m ≤ 12) (hd1 : 1 ≤ dd) (hd : dd ≤ daysInMonth y m) :
    parseISOChars (isoChars ⟨y, m, dd⟩) = some ⟨y, m, dd⟩ := by
  have s1 := @takeWhile_append_sep (pad4c y) '-'
      (pad2c m ++ '-' :: pad2c dd) (pad4c_isDigit y) rfl
  have s2 := @takeWhile_append_sep (pad2c m) '-' (pad2c dd) (pad2c_isDigit m) rfl
  have s3 := takeWhile_all_digits (pad2c_isDigit dd)
  have hvm : validField (pad2c m) 1 12 := by
    refine ⟨by simp [pad2c], by simp [pad2c], ?_, ?_⟩ <;>
      rw [digitsVal_pad2c (show m < 100 by omega)] <;> omega
  have hvd : validField (pad2c dd) 1 31 := by
    have h31 := daysInMonth_le_31 y m
    refine ⟨by simp [pad2c], by simp [pad2c], ?_, ?_⟩ <;>
      rw [digitsVal_pad2c (show dd < 100 by omega)] <;> omega
  have h31 := daysInMonth_le_31 y m
  simp only [parseISOChars, isoChars]
  rw [s1.1, s1.2]
  have hlen : (pad4c y).length = 4 := rfl
  rw [hlen, if_pos rfl]
  simp only []
  rw [s2.1, s2.2]
  rw [if_pos hvm]
  simp only []
  rw [s3.1, s3.2]
  rw [if_pos ⟨rfl, hvd⟩]
  rw [digitsVal_pad4c (show y < 10000 by omega), digitsVal_pad2c (show m < 100 by omega),
    digitsVal_pad2c (show dd < 100 by omega)]
  rw [mkDate?, if_pos ⟨hy1, hy, hm1, hm, hd1, hd⟩]

end ProposalGen

namespace ProposalGen

theorem parseMDYChars_mdy (y m dd : ℕ) (hy1 : 1 ≤ y) (hy : y ≤ 9999)
    (hm1 : 1 ≤ m) (hm : m ≤ 12) (hd1 : 1 ≤ dd) (hd : dd ≤ daysInMonth y m) :
    parseMDYChars (mdyChars ⟨y, m, dd⟩) = some ⟨y, m, dd⟩ := by
  have s1 := @takeWhile_append_sep (pad2c m) '/'
      (pad2c dd ++ '/' :: pad4c y) (pad2c_isDigit m) rfl
  have s2 := @takeWhile_append_sep (pad2c dd) '/' (pad4c y) (pad2c_isDigit dd) rfl
  have s3 := takeWhile_all_digits (pad4c_isDigit y)
  have h31 := daysInMonth_le_31 y m
  have hvm : validField (pad2c m) 1 12 := by
    refine ⟨by simp [pad2c], by simp [pad2c], ?_, ?_⟩ <;>
      rw [digitsVal_pad2c (show m < 100 by omega)] <;> omega
  have hvd : validField (pad2c dd) 1 31 := by
    refine ⟨by simp [pad2c], by simp [pad2c], ?_, ?_⟩ <;>
      rw [digitsVal_pad2c (show dd < 100 by omega)] <;> omega
  simp only [parseMDYChars, mdyChars]
  rw [s1.1, s1.2]
  rw [if_pos hvm]
  simp only []
  rw [s2.1, s2.2]
  rw [if_pos hvd]
  simp only []
  rw [s3.1, s3.2]
  have hlen : (pad4c y).length = 4 := rfl
  rw [hlen, if_pos ⟨rfl, rfl⟩]
  rw [digitsVal_pad4c (show y < 10000 by omega), digitsVal_pad2c (show m < 100 by omega),
    digitsVal_pad2c (show dd < 100 by omega)]
  rw [mkDate?, if_pos ⟨hy1, hy, hm1, hm, hd1, hd⟩]

theorem parseISOChars_mdy_none (d : PyDate) :
    parseISOChars (mdyChars d) = Option.none := by
  have s1 := @takeWhile_append_sep (pad2c d.month) '/'
      (pad2c d.day ++ '/' :: pad4c d.year) (pad2c_isDigit d.month) rfl
  simp only [parseISOChars, mdyChars]
  rw [s1.1]
  have hlen : (pad2c d.month).length = 2 := rfl
  rw [hlen]
  norm_num

theorem isDigit_not_space {c : Char} (h : c.isDigit = true) : isSpaceChar c = false := by
  rw [isSpaceChar]
  simp only [Bool.or_eq_false_iff, decide_eq_false_iff_not]
  refine ⟨⟨⟨⟨⟨?_, ?_⟩, ?_⟩, ?_⟩, ?_⟩, ?_⟩ <;> rintro rfl <;> simp [Char.isDigit] at h

theorem isoChars_not_space (d : PyDate) : ∀ c ∈ isoChars d, isSpaceChar c = false := by
  intro c hc
  rw [isoChars] at hc
  rcases List.mem_append.mp hc with h | h
  · exact isDigit_not_space (pad4c_isDigit d.year c h)
  · rcases List.mem_cons.mp h with rfl | h
    · rfl
    · rcases List.mem_append.mp h with h2 | h2
      · exact isDigit_not_space (pad2c_isDigit d.month c h2)
      · rcases List.mem_cons.mp h2 with rfl | h3
        · rfl
        · exact isDigit_not_space (pad2c_isDigit d.day c h3)

theorem mdyChars_not_space (d : PyDate) : ∀ c ∈ mdyChars d, isSpaceChar c = false := by
  intro c hc
  rw [mdyChars] at hc
  rcases List.mem_append.mp hc with h | h
  · exact isDigit_not_space (pad2c_isDigit d.month c h)
  · rcases List.mem_cons.mp h with rfl | h
    · rfl
    · rcases List.mem_append.mp h with h2 | h2
      · exact isDigit_not_space (pad2c_isDigit d.day c h2)
      · rcases List.mem_cons.mp h2 with rfl | h3
        · rfl
        · exact isDigit_not_space (pad4c_isDigit d.year c h3)

end ProposalGen

namespace ProposalGen

theorem parse_date_iso (y m dd : ℕ) (hy1 : 1 ≤ y) (hy : y ≤ 9999)
    (hm1 : 1 ≤ m) (hm : m ≤ 12) (hd1 : 1 ≤ dd) (hd : dd ≤ daysInMonth y m) :
    parse_date (RawValue.str (String.mk (isoChars ⟨y, m, dd⟩))) = some ⟨y, m, dd⟩ := by
  have hdata : (String.mk (isoChars ⟨y, m, dd⟩)).data = isoChars ⟨y, m, dd⟩ := rfl
  have hne : (isoChars ⟨y, m, dd⟩).isEmpty = false := rfl
  simp only [parse_date, hdata, trimChars_eq_self (isoChars_not_space _), hne,
    Bool.false_eq_true, if_false]
  rw [parseISOChars_iso y m dd hy1 hy hm1 hm hd1 hd]

theorem parse_date_mdy (y m dd : ℕ) (hy1 : 1 ≤ y) (hy : y ≤ 9999)
    (hm1 : 1 ≤ m) (hm : m ≤ 12) (hd1 : 1 ≤ dd) (hd : dd ≤ daysInMonth y m) :
    parse_date (RawValue.str (String.mk (mdyChars ⟨y, m, dd⟩))) = some ⟨y, m, dd⟩ := by
  have hdata : (String.mk (mdyChars ⟨y, m, dd⟩)).data = mdyChars ⟨y, m, dd⟩ := rfl
  have hne : (mdyChars ⟨y, m, dd⟩).isEmpty = false := rfl
  simp only [parse_date, hdata, trimChars_eq_self (mdyChars_not_space _), hne,
    Bool.false_eq_true, if_false]
  rw [parseISOChars_mdy_none, parseMDYChars_mdy y m dd hy1 hy hm1 hm hd1 hd]

/-- C6: the date accepted forms agree.  For every valid date, its canonical
YYYY-MM-DD and MM/DD/YYYY string spellings parse back to it and format
(cover and plan styles) exactly as the date or datetime value itself; any
value that parses under none of the accepted forms yields the missing
sentinel; and the example date of the spec renders as MARCH 05, 2024 under
date_cover and March 5, 2024 under date_plan from all three string forms
including the two-digit-year MM/DD/YY one. -/
theorem format_date_roundtrip (y m dd : ℕ) (mv : String)
    (hy1 : 1 ≤ y) (hy : y ≤ 9999) (hm1 : 1 ≤ m) (hm : m ≤ 12)
    (hd1 : 1 ≤ dd) (hd : dd ≤ daysInMonth y m) :
    parse_date (RawValue.str (String.mk (isoChars ⟨y, m, dd⟩))) = some ⟨y, m, dd⟩
    ∧ parse_date (RawValue.str (String.mk (mdyChars ⟨y, m, dd⟩))) = some ⟨y, m, dd⟩
    ∧ format_date_cover (RawValue.str (String.mk (isoChars ⟨y, m, dd⟩))) mv
        = format_date_cover (RawValue.dateV ⟨y, m, dd⟩) mv
    ∧ format_date_cover (RawValue.str (String.mk (mdyChars ⟨y, m, dd⟩))) mv
        = format_date_cover (RawValue.dateV ⟨y, m, dd⟩) mv
    ∧ format_date_plan (RawValue.str (String.mk (isoChars ⟨y, m, dd⟩))) mv
        = format_date_plan (RawValue.dateV ⟨y, m, dd⟩) mv
    ∧ format_date_plan (RawValue.str (String.mk (mdyChars ⟨y, m, dd⟩))) mv
        = format_date_plan (RawValue.dateV ⟨y, m, dd⟩) mv
    ∧ format_date_cover (RawValue.datetimeV ⟨y, m, dd⟩) mv
        = format_date_cover (RawValue.dateV ⟨y, m, dd⟩) mv
    ∧ format_date_plan (RawValue.datetimeV ⟨y, m, dd⟩) mv
        = format_date_plan (RawValue.dateV ⟨y, m, dd⟩) mv
    ∧ (∀ v, parse_date v = Option.none →
        format_date_cover v mv = mv ∧ format_date_plan v mv = mv)
    ∧ format_date_cover (RawValue.str "2024-03-05") "X" = "MARCH 05, 2024"
    ∧ format_date_cover (RawValue.str "03/05/2024") "X" = "MARCH 05, 2024"
    ∧ format_date_cover (RawValue.str "03/05/24") "X" = "MARCH 05, 2024"
    ∧ format_date_plan (RawValue.str "2024-03-05") "X" = "March 5, 2024"
    ∧ format_date_plan (RawValue.str "03/05/2024") "X" = "March 5, 2024"
    ∧ format_date_plan (RawValue.str "03/05/24") "X" = "March 5, 2024" := by
  have hiso := parse_date_iso y m dd hy1 hy hm1 hm hd1 hd
  have hmdy := parse_date_mdy y m dd hy1 hy hm1 hm hd1 hd
  refine ⟨hiso, hmdy, ?_, ?_, ?_, ?_, rfl, rfl, ?_, by decide, by decide, by decide,
    by decide, by decide, by decide⟩
  · rw [format_date_cover, hiso]; rfl
  · rw [format_date_cover, hmdy]; rfl
  · rw [format_date_plan, hiso]; rfl
  · rw [format_date_plan, hmdy]; rfl
  · intro v hv
    constructor
    · rw [format_date_cover, hv]
    · rw [format_date_plan, hv]

/-- Witness for the C6 theorem at the date 2024-03-05. -/
theorem format_date_roundtrip_witness :
    parse_date (RawValue.str (String.mk (isoChars ⟨2024, 3, 5⟩))) = some ⟨2024, 3, 5⟩
    ∧ (5 : ℕ) ≤ daysInMonth 2024 3 :=
  ⟨(format_date_roundtrip 2024 3 5 "Z" (by norm_num) (by norm_num) (by norm_num)
      (by norm_num) (by norm_num) (by decide)).1, by decide⟩

end ProposalGen

namespace ProposalGen

/-- C7: initials formatting: a none raw value, or one whose str() is blank
after trimming, gives the missing sentinel; otherwise the trimmed value is
looked up in prepared_by_map, mapping to its label when present and passing
through unchanged when absent; with the map of the spec example, JD maps to
Jane Doe, XY passes through, and the empty string gives the sentinel. -/
theorem format_initials_spec (v : RawValue) (pbm : List (String × String)) (mv : String) :
    format_initials RawValue.none pbm mv = mv
    ∧ (v ≠ RawValue.none → pyStrip (pyStr v) = "" → format_initials v pbm mv = mv)
    ∧ (v ≠ RawValue.none → pyStrip (pyStr v) ≠ "" →
        format_initials v pbm mv
          = (pbm.lookup (pyStrip (pyStr v))).getD (pyStrip (pyStr v)))
    ∧ format_initials (RawValue.str "JD") [("JD", "Jane Doe")] mv = "Jane Doe"
    ∧ format_initials (RawValue.str "XY") [("JD", "Jane Doe")] mv = "XY"
    ∧ format_initials (RawValue.str "") [("JD", "Jane Doe")] mv = mv := by
  refine ⟨rfl, ?_, ?_, rfl, rfl, rfl⟩
  · intro hne he
    cases v with
    | none => exact absurd rfl hne
    | num q => simp only [format_initials]; rw [he]; simp
    | str s => simp only [format_initials]; rw [he]; simp
    | dateV d => simp only [format_initials]; rw [he]; simp
    | datetimeV d => simp only [format_initials]; rw [he]; simp
  · intro hne he
    cases v with
    | none => exact absurd rfl hne
    | num q => simp only [format_initials]; rw [if_neg he]
    | str s => simp only [format_initials]; rw [if_neg he]
    | dateV d => simp only [format_initials]; rw [if_neg he]
    | datetimeV d => simp only [format_initials]; rw [if_neg he]

/-- Witness for the C7 theorem: the whitespace-padded value JD trims and
maps to Jane Doe. -/
theorem format_initials_spec_witness :
    RawValue.str " JD " ≠ RawValue.none
    ∧ pyStrip (pyStr (RawValue.str " JD ")) ≠ ""
    ∧ format_initials (RawValue.str " JD ") [("JD", "Jane Doe")] "N/A" = "Jane Doe" := by
  refine ⟨by simp, by decide, ?_⟩
  have h := (format_initials_spec (RawValue.str " JD ") [("JD", "Jane Doe")] "N/A").2.2.1
    (by simp) (by decide)
  rw [h]
  rfl

/-- C8: a field listed in a page's coordinate specs whose formatted value is
absent from the field-value mapping, or present as the empty string, draws
nothing: the overlay built with that entry equals the overlay built without
it (and the renderer is total, so no error is raised). -/
theorem build_overlay_skips (metrics : String → Char → ℚ) (pageSize : ℚ × ℚ)
    (l1 l2 : List (String × FieldSpec)) (name : String) (spec : FieldSpec)
    (fieldValues : List (String × String))
    (h : fieldValues.lookup name = Option.none ∨ fieldValues.lookup name = some "") :
    build_overlay metrics pageSize (l1 ++ (name, spec) :: l2) fieldValues
      = build_overlay metrics pageSize (l1 ++ l2) fieldValues := by
  simp only [build_overlay, Overlay.mk.injEq, List.filterMap_append, List.filterMap_cons]
  rcases h with h | h <;> simp [h]

/-- Witness for the C8 theorem: the field a has no value, so its overlay
entry is skipped. -/
theorem build_overlay_skips_witness :
    List.lookup "a" [("b", "hi")] = (Option.none : Option String)
    ∧ build_overlay (fun _ _ => 500) (612, 792)
        ([] ++ ("a", ⟨10, 20, "Helvetica", 12, "left", Option.none, 8⟩) ::
          [("b", ⟨30, 40, "Helvetica", 12, "left", Option.none, 8⟩)]) [("b", "hi")]
      = build_overlay (fun _ _ => 500) (612, 792)
        ([] ++ [("b", ⟨30, 40, "Helvetica", 12, "left", Option.none, 8⟩)]) [("b", "hi")] :=
  ⟨rfl, build_overlay_skips (fun _ _ => 500) (612, 792) []
    [("b", ⟨30, 40, "Helvetica", 12, "left", Option.none, 8⟩)] "a"
    ⟨10, 20, "Helvetica", 12, "left", Option.none, 8⟩ [("b", "hi")] (Or.inl rfl)⟩

/-- C9: the assembler emits exactly the template pages, in order, each
assembled page carrying its own template page (nothing added, removed or
reordered); a page whose 1-based page key is absent from the coordinates
config passes through with its content untouched. -/
theorem assemble_pages_spec {P : Type} (metrics : String → Char → ℚ) (pageSize : P → ℚ × ℚ)
    (coords : List (String × List (String × FieldSpec)))
    (fieldValues : List (String × String)) (pages : List P) :
    (assemble_pages metrics pageSize coords fieldValues pages).map AssembledPage.original
        = pages
    ∧ ∀ i (h1 : i < pages.length)
        (h2 : i < (assemble_pages metrics pageSize coords fieldValues pages).length),
        coords.lookup ("page_" ++ Nat.repr (i + 1)) = Option.none →
        (assemble_pages metrics pageSize coords fieldValues pages).get ⟨i, h2⟩
          = AssembledPage.passthrough (pages.get ⟨i, h1⟩) := by
  have horig : ∀ ip : ℕ × P,
      AssembledPage.original (assemble_step metrics pageSize coords fieldValues ip)
        = ip.2 := by
    intro ip
    rw [assemble_step]
    rcases coords.lookup ("page_" ++ Nat.repr (ip.1 + 1)) with _ | pf
    · rfl
    · by_cases hpf : pf.isEmpty
      · simp only [if_pos hpf]
        rfl
      · simp only [if_neg hpf]
        rfl
  constructor
  · rw [assemble_pages, List.map_map]
    have key : ∀ l : List (ℕ × P),
        l.map (AssembledPage.original ∘ assemble_step metrics pageSize coords fieldValues)
          = l.map Prod.snd := by
      intro l
      induction l with
      | nil => rfl
      | cons a t ih =>
        simp only [List.map_cons, ih, Function.comp_apply, horig a]
    rw [key, List.enum_map_snd]
  · intro i h1 h2 hl
    simp only [assemble_pages, List.get_eq_getElem, List.getElem_map, List.getElem_enum]
    rw [assemble_step]
    simp only [hl]

/-- Witness for the C9 theorem: with an empty coordinates config both pages
of a two-page document pass through. -/
theorem assemble_pages_spec_witness :
    (assemble_pages (fun _ _ => (500 : ℚ)) (fun _ : ℕ => ((612 : ℚ), 792)) [] [] [7, 9]).map
        AssembledPage.original = [7, 9]
    ∧ (assemble_pages (fun _ _ => (500 : ℚ)) (fun _ : ℕ => ((612 : ℚ), 792)) [] [] [7, 9]).get
        ⟨1, by simp [assemble_pages]⟩ = AssembledPage.passthrough 9 := by
  have h := assemble_pages_spec (fun _ _ => (500 : ℚ)) (fun _ : ℕ => ((612 : ℚ), 792))
    [] [] [7, 9]
  exact ⟨h.1, h.2 1 (by norm_num) (by simp [assemble_pages]) rfl⟩

end ProposalGen
